import Mathlib

/-!
Verification development for `scripts/snakemake/ichorCNA_results_summary.py`.

The script is embedded shallowly:

* Python strings are `List Char` (`PyStr`); Python string methods used by the
  script (`strip`, `split`, `replace`, `endswith`, substring containment) are
  re-implemented with Python semantics.
* The file system visible to the script is modelled explicitly: a results root
  is a list of immediate subdirectories (`SampleDir`), each holding plain files
  (`PyFile`) given as lists of text lines, in directory-listing order.  The
  script only ever looks at immediate subdirectories (`os.path.isdir`) and the
  plain files inside them, so entries of other kinds are not represented.
* `pandas.read_csv(sep="\t")` is modelled as splitting each non-empty line on
  tab characters (`parseTable`); cell values stay the raw text tokens, since no
  claim depends on pandas' numeric type inference.  Likewise Python `float`
  parsing is abstracted: a successfully parsed numeric field keeps its token
  (`NumField.val`); no claim depends on floating-point arithmetic.
* `print` effects are modelled by returning the list of printed diagnostic
  lines next to the computed value; a Python exception (the `KeyError` raised
  by `df.loc` on a missing column) is modelled with `Except`.
-/

/-- Python strings, modelled as lists of characters. -/
abbrev PyStr := List Char

/-- Python `str.strip()`: drop leading and trailing whitespace. -/
def pyStrip (s : PyStr) : PyStr :=
  ((s.dropWhile Char.isWhitespace).reverse.dropWhile Char.isWhitespace).reverse

/-- Python `str.split(sep)` for a one-character separator: split on every
occurrence of `sep`, keeping empty pieces, never returning an empty list. -/
def pySplitOnChar (sep : Char) : PyStr → List PyStr
  | [] => [[]]
  | c :: rest =>
    if c = sep then [] :: pySplitOnChar sep rest
    else
      match pySplitOnChar sep rest with
      | [] => [[c]]
      | t :: ts => (c :: t) :: ts

/-- Python `sub in s` substring containment. -/
def pyContains (pat : PyStr) : PyStr → Bool
  | [] => pat.isEmpty
  | c :: rest => pat.isPrefixOf (c :: rest) || pyContains pat rest

/-- Python `s.endswith(suffix)`. -/
def pyEndsWith (s suffix : PyStr) : Bool := suffix.isSuffixOf s

/-- Fuel-indexed worker for `pyReplace`; the fuel only serves structural
recursion and is never exhausted when it starts at the string's length,
because every step strips at least one character. -/
def pyReplaceFuel (pat rep : PyStr) : Nat → PyStr → PyStr
  | _, [] => if pat.isEmpty then rep else []
  | 0, s => s
  | fuel + 1, c :: rest =>
    if pat.isEmpty then rep ++ c :: pyReplaceFuel pat rep fuel rest
    else if pat.isPrefixOf (c :: rest) then
      rep ++ pyReplaceFuel pat rep fuel (rest.drop (pat.length - 1))
    else c :: pyReplaceFuel pat rep fuel rest

/-- Python `s.replace(pat, rep)`: replace every non-overlapping occurrence of
`pat`, scanning left to right; an empty pattern interleaves `rep` around every
character, as in Python. -/
def pyReplace (pat rep s : PyStr) : PyStr := pyReplaceFuel pat rep s.length s

/-- A file as the script sees it: a name and its text content as a list of
lines (newlines already stripped off by the model). -/
structure PyFile where
  name : PyStr
  content : List PyStr
deriving DecidableEq

/-- An immediate subdirectory of the results root, with its plain files in
directory-listing order. -/
structure SampleDir where
  name : PyStr
  files : List PyFile
deriving DecidableEq

/-- Label scanned for by `extract_tf_data` (`"Gender:" in line`). -/
def genderLabel : PyStr := "Gender:".toList

/-- Label scanned for by `extract_tf_data` (`"Tumor Fraction:" in line`). -/
def tumorFractionLabel : PyStr := "Tumor Fraction:".toList

/-- Label scanned for by `extract_tf_data` (`"Ploidy:" in line`). -/
def ploidyLabel : PyStr := "Ploidy:".toList

/-- Label scanned for by `extract_tf_data` (`"ChrY coverage fraction:" in line`). -/
def chrYLabel : PyStr := "ChrY coverage fraction:".toList

/-- Label scanned for by `extract_tf_data` (`"ChrX median log ratio:" in line`). -/
def chrXLabel : PyStr := "ChrX median log ratio:".toList

/-- The literal sentinel `'NA'` of the script. -/
def naLit : PyStr := "NA".toList

/-- The `".params.txt"` suffix looked for in each sample folder. -/
def paramsSuffix : PyStr := ".params.txt".toList

/-- The `".cna.seg"` suffix looked for in each sample folder. -/
def segSuffix : PyStr := ".cna.seg".toList

/-- The diagnostic printed for a sample folder without a params file
(`f"No params.txt file found for sample: {sample_folder}"`). -/
def noParamsMsg (sample : PyStr) : PyStr :=
  "No params.txt file found for sample: ".toList ++ sample

/-- A numeric field of the parameter record.  `absent` means the label never
occurred (the key is missing from the Python dict and pandas fills NaN);
`nan` is `np.nan` stored for the literal value `'NA'`; `val tok` stands for
`float(tok)` with the token kept, since no claim uses float arithmetic. -/
inductive NumField where
  | absent
  | nan
  | val (tok : PyStr)
deriving DecidableEq

/-- One row of the parameter table built by `extract_tf_data`. -/
structure TFRecord where
  library : PyStr
  gender : Option PyStr
  tumor_fraction : NumField
  ploidy : NumField
  ChrY_coverage_fraction : NumField
  ChrX_median_log_ratio : NumField
deriving DecidableEq

/-- The record for a sample before any line is parsed: only the library
(subfolder name) is set, every other key is missing. -/
def initRecord (library : PyStr) : TFRecord :=
  { library := library, gender := none, tumor_fraction := .absent,
    ploidy := .absent, ChrY_coverage_fraction := .absent,
    ChrX_median_log_ratio := .absent }

/-- The value the script extracts from a recognized line:
`line.split(":")[1].strip()` — the text between the first and second colons,
trimmed (index 1 of the colon-split). -/
def lineValue (line : PyStr) : PyStr :=
  pyStrip ((pySplitOnChar ':' line).getD 1 [])

/-- Numeric-field parse used on four of the five labels:
`float(value) if value != 'NA' else np.nan`. -/
def numFieldOf (v : PyStr) : NumField :=
  if v = naLit then .nan else .val v

/-- Processing of one raw line of a params file by the `for line in file`
loop of `extract_tf_data`: strip, then test the five labels in order. -/
def updateRecord (r : TFRecord) (rawLine : PyStr) : TFRecord :=
  let line := pyStrip rawLine
  if pyContains genderLabel line then
    { r with gender := some (lineValue line) }
  else if pyContains tumorFractionLabel line then
    { r with tumor_fraction := numFieldOf (lineValue line) }
  else if pyContains ploidyLabel line then
    { r with ploidy := numFieldOf (lineValue line) }
  else if pyContains chrYLabel line then
    { r with ChrY_coverage_fraction := numFieldOf (lineValue line) }
  else if pyContains chrXLabel line then
    { r with ChrX_median_log_ratio := numFieldOf (lineValue line) }
  else r

/-- The first file of a sample folder whose name ends in `".params.txt"`
(the inner loop with `break` of `extract_tf_data` and of the zip builders). -/
def findParamsFile (files : List PyFile) : Option PyFile :=
  files.find? (fun f => pyEndsWith f.name paramsSuffix)

/-- Parsing a whole params file into the record of one sample. -/
def parseParamsFile (sample : PyStr) (lines : List PyStr) : TFRecord :=
  lines.foldl updateRecord (initRecord sample)

/-- Insertion into a list sorted by the boolean order `le`. -/
def insertLe {α : Type} (le : α → α → Bool) (x : α) : List α → List α
  | [] => [x]
  | y :: ys => if le x y then x :: y :: ys else y :: insertLe le x ys

/-- Insertion sort by the boolean order `le`; models the ascending
`pandas.sort_values` calls (all sort keys of the script are unique or the
claims are order-insensitive, so the sorting algorithm itself is immaterial). -/
def isort {α : Type} (le : α → α → Bool) (l : List α) : List α :=
  l.foldr (insertLe le) []

/-- Python string comparison: lexicographic on code points. -/
def strLe : PyStr → PyStr → Bool
  | [], _ => true
  | _ :: _, [] => false
  | a :: as, b :: bs =>
    if a.toNat = b.toNat then strLe as bs else decide (a.toNat < b.toNat)

/-- Order of `sort_values('library')` on parameter records. -/
def tfLe (a b : TFRecord) : Bool := strLe a.library b.library

/-- One step of the sample-folder loop of `extract_tf_data`: either append the
parsed record, or print the missing-file diagnostic. -/
def tfStep (acc : List TFRecord × List PyStr) (d : SampleDir) :
    List TFRecord × List PyStr :=
  match findParamsFile d.files with
  | none => (acc.1, acc.2 ++ [noParamsMsg d.name])
  | some f => (acc.1 ++ [parseParamsFile d.name f.content], acc.2)

/-- Model of `extract_tf_data(results_dir)`: the parameter table (sorted ascending by
library) together with the printed diagnostics. -/
def extract_tf_data (root : List SampleDir) : List TFRecord × List PyStr :=
  let r := root.foldl tfStep ([], [])
  (isort tfLe r.1, r.2)

/-- Specification-side view of the records collected by `extract_tf_data`
before sorting: one record per subdirectory holding a params file. -/
def tfRecs (root : List SampleDir) : List TFRecord :=
  root.filterMap fun d =>
    (findParamsFile d.files).map fun f => parseParamsFile d.name f.content

/-- Specification-side view of the diagnostics printed by `extract_tf_data`:
one line per subdirectory without a params file. -/
def tfLog (root : List SampleDir) : List PyStr :=
  (root.filter fun d => (findParamsFile d.files).isNone).map fun d =>
    noParamsMsg d.name

/-- A tab-separated table as produced by `pd.read_csv(file, sep="\t")`:
first non-empty line is the header, remaining non-empty lines are the rows,
each split on tabs.  Cell values stay raw text tokens. -/
structure SegTable where
  columns : List PyStr
  rows : List (List PyStr)
deriving DecidableEq

/-- Model of `pd.read_csv(file, sep="\t")` on a file given as lines. -/
def parseTable (lines : List PyStr) : SegTable :=
  match lines.filter (fun l => !l.isEmpty) with
  | [] => { columns := [], rows := [] }
  | h :: rest =>
    { columns := pySplitOnChar '\t' h, rows := rest.map (pySplitOnChar '\t') }

/-- Index of the first column with the given name (pandas column lookup). -/
def firstIdx (c : PyStr) : List PyStr → Option Nat
  | [] => none
  | x :: xs => if x = c then some 0 else (firstIdx c xs).map (· + 1)

/-- One row of the long-format CNA table:
`[library, chr, start, end, <logR column choice>]`. -/
structure CNARow where
  library : PyStr
  chr : PyStr
  start : PyStr
  end_ : PyStr
  value : PyStr
deriving DecidableEq

/-- Model of `file_name.replace(".cna.seg", "")`: the library identifier the script
derives from a segmentation file name (removing every occurrence). -/
def libOfFileName (n : PyStr) : PyStr := pyReplace segSuffix [] n

/-- Model of `f"{library}.{logR_column_choice}"`: the expected library-prefixed column. -/
def segColumnName (lib sel : PyStr) : PyStr := lib ++ '.' :: sel

/-- Processing of one `.cna.seg` file by `extract_cna_data`: if the expected
library-prefixed column is absent the file contributes nothing; otherwise
`df.loc[:, ['chr','start','end',logR_column]]` projects the four columns,
raising `KeyError` (modelled as `Except.error`) when `chr`, `start` or `end`
is missing; every row is tagged with the library. -/
def extractFileRows (sel : PyStr) (f : PyFile) : Except Unit (List CNARow) :=
  let library := libOfFileName f.name
  let t := parseTable f.content
  let logRColumn := segColumnName library sel
  if logRColumn ∈ t.columns then
    match firstIdx "chr".toList t.columns, firstIdx "start".toList t.columns,
        firstIdx "end".toList t.columns, firstIdx logRColumn t.columns with
    | some i1, some i2, some i3, some i4 =>
      .ok (t.rows.map fun row =>
        { library := library, chr := row.getD i1 [], start := row.getD i2 [],
          end_ := row.getD i3 [], value := row.getD i4 [] })
    | _, _, _, _ => .error ()
  else .ok []

/-- The inner file loop of `extract_cna_data` over one sample folder: every
file ending in `".cna.seg"` is processed, rows are accumulated in order, and
an exception aborts the whole extraction. -/
def collectFilesRows (sel : PyStr) : List PyFile → Except Unit (List CNARow)
  | [] => .ok []
  | f :: fs =>
    if pyEndsWith f.name segSuffix then
      match extractFileRows sel f, collectFilesRows sel fs with
      | .ok rs, .ok rest => .ok (rs ++ rest)
      | .error e, _ => .error e
      | .ok _, .error e => .error e
    else collectFilesRows sel fs

/-- The outer directory loop of `extract_cna_data`. -/
def collectRows (sel : PyStr) : List SampleDir → Except Unit (List CNARow)
  | [] => .ok []
  | d :: ds =>
    match collectFilesRows sel d.files, collectRows sel ds with
    | .ok rs, .ok rest => .ok (rs ++ rest)
    | .error e, _ => .error e
    | .ok _, .error e => .error e

/-- Order of `sort_values(by=['library','chr','start','end'])` on CNA rows
(string comparison on each key; only the permutation matters to the claims). -/
def cnaLe (a b : CNARow) : Bool :=
  if a.library = b.library then
    if a.chr = b.chr then
      if a.start = b.start then strLe a.end_ b.end_
      else strLe a.start b.start
    else strLe a.chr b.chr
  else strLe a.library b.library

/-- Model of `extract_cna_data(parent_directory, logR_column_choice)`: the sorted
long-format table (or the propagated exception) together with the printed
diagnostics, of which there are none — the function contains no `print`. -/
def extract_cna_data (root : List SampleDir) (sel : PyStr) :
    Except Unit (List CNARow) × List PyStr :=
  ((collectRows sel root).map (isort cnaLe), [])

/-- The rows a single file would contribute (empty when it is skipped or when
processing it raises). -/
def fileRowsOr (sel : PyStr) (f : PyFile) : List CNARow :=
  match extractFileRows sel f with
  | .ok l => l
  | .error _ => []

/-- Specification-side view of the long table: the tagged rows of every
`.cna.seg` file of every subdirectory, in traversal order. -/
def sourceRows (root : List SampleDir) (sel : PyStr) : List CNARow :=
  root.flatMap fun d =>
    (d.files.filter fun f => pyEndsWith f.name segSuffix).flatMap (fileRowsOr sel)

/-- The `(chr, start, end)` index triple of a long-table row. -/
def rowKey (r : CNARow) : PyStr × PyStr × PyStr := (r.chr, r.start, r.end_)

/-- The full pivot key `(library, chr, start, end)` of a long-table row. -/
def pkey (r : CNARow) : PyStr × PyStr × PyStr × PyStr :=
  (r.library, r.chr, r.start, r.end_)

/-- Does the long table contain two rows with the same pivot key?  This is the
condition under which `DataFrame.pivot` raises
`ValueError: Index contains duplicate entries, cannot reshape`. -/
def hasDupPivotKey : List CNARow → Bool
  | [] => false
  | r :: rest => rest.any (fun x => decide (pkey x = pkey r)) || hasDupPivotKey rest

/-- Cell lookup of the pivoted matrix: the value of the unique long-table row
with the given `(chr, start, end)` index and library column, if any. -/
def pivotCells (rows : List CNARow) (k : PyStr × PyStr × PyStr) (lib : PyStr) :
    Option PyStr :=
  (rows.find? fun r => decide (rowKey r = k) && decide (r.library = lib)).map
    fun r => r.value

/-- The wide matrix produced by `DataFrame.pivot(index=["chr","start","end"],
columns="library", values=sel)`: one row per distinct interval, one column per
distinct library, cells by lookup.  (pandas sorts `keys` and `libs`; the claims
are insensitive to their order.) -/
structure WideTable where
  keys : List (PyStr × PyStr × PyStr)
  libs : List PyStr
  cells : (PyStr × PyStr × PyStr) → PyStr → Option PyStr

/-- The matrix `pivot` builds when it does not raise. -/
def pivotTable (rows : List CNARow) : WideTable :=
  { keys := (rows.map rowKey).dedup,
    libs := (rows.map CNARow.library).dedup,
    cells := pivotCells rows }

/-- Model of `DataFrame.pivot`, raising on duplicate `(index, columns)` entries. -/
def pivot (rows : List CNARow) : Except Unit WideTable :=
  if hasDupPivotKey rows then .error () else .ok (pivotTable rows)

/-- One member written into `params.zip`: source directory, source file name,
and the member name passed as `arcname`. -/
structure ZipMember where
  srcDir : PyStr
  srcFile : PyStr
  arcname : PyStr
deriving DecidableEq

/-- Model of `create_params_zip(results_dir, output_zip)`: for each subdirectory, the
first `.params.txt` file is appended under its bare file name (`for`/`break`
with the `else` clause printing the diagnostic).  Returns the members in
order together with the printed diagnostics; writing always succeeds. -/
def create_params_zip (root : List SampleDir) : List ZipMember × List PyStr :=
  root.foldl
    (fun acc d =>
      match findParamsFile d.files with
      | some f => (acc.1 ++ [⟨d.name, f.name, f.name⟩], acc.2)
      | none => (acc.1, acc.2 ++ [noParamsMsg d.name]))
    ([], [])

/-- Specification-side view of the `params.zip` members. -/
def zipMembers (root : List SampleDir) : List ZipMember :=
  root.filterMap fun d =>
    (findParamsFile d.files).map fun f => ⟨d.name, f.name, f.name⟩

/-- Specification-side view of the diagnostics printed by `create_params_zip`. -/
def zipLog (root : List SampleDir) : List PyStr :=
  (root.filter fun d => (findParamsFile d.files).isNone).map fun d =>
    noParamsMsg d.name

/-- The `logR` column selector of the first `extract_cna_data` call. -/
def logRSel : PyStr := "logR".toList

/-- The `logR_Copy_Number` column selector of the second call. -/
def logRCNSel : PyStr := "logR_Copy_Number".toList

/-- The library-name normalization of `main`:
`str.replace(args.bam_name_pattern, '', regex=False)`. -/
def renameLib (pat s : PyStr) : PyStr := pyReplace pat [] s

/-- Normalization applied to every library tag of a long table. -/
def renameRows (pat : PyStr) (rows : List CNARow) : List CNARow :=
  rows.map fun r => { r with library := renameLib pat r.library }

/-- Normalization applied to every library of the parameter table. -/
def renameTF (pat : PyStr) (recs : List TFRecord) : List TFRecord :=
  recs.map fun r => { r with library := renameLib pat r.library }

/-- The five tables `main` writes to the output directory. -/
structure MainOut where
  tf : List TFRecord
  cnaLongLogR : List CNARow
  cnaLongLogRCN : List CNARow
  matrixLogR : WideTable
  matrixLogRCN : WideTable

/-- The data pipeline of `main` (steps 1-4): extract and rename the three
tables, then pivot the two long tables.  Any exception aborts the run before
any output file is written; the five output tables exist only on success. -/
def mainResult (root : List SampleDir) (pat : PyStr) : Except Unit MainOut :=
  let tf := renameTF pat (extract_tf_data root).1
  match (extract_cna_data root logRSel).1 with
  | .error e => .error e
  | .ok rows1 =>
    let rows1 := renameRows pat rows1
    match (extract_cna_data root logRCNSel).1 with
    | .error e => .error e
    | .ok rows2 =>
      let rows2 := renameRows pat rows2
      match pivot rows1 with
      | .error e => .error e
      | .ok w1 =>
        match pivot rows2 with
        | .error e => .error e
        | .ok w2 =>
          .ok { tf := tf, cnaLongLogR := rows1, cnaLongLogRCN := rows2,
                matrixLogR := w1, matrixLogRCN := w2 }

/-- Concrete results root used to witness the long-table/row correspondence:
one sample with one well-formed segmentation file. -/
def c1wRoot : List SampleDir :=
  [⟨"S1".toList,
    [⟨"S1.cna.seg".toList,
      ["chr\tstart\tend\tS1.logR".toList, "chr1\t0\t1000\t-0.05".toList]⟩]⟩]

/-- The long table the script extracts from `c1wRoot`. -/
def c1wRows : List CNARow :=
  [⟨"S1".toList, "chr1".toList, "0".toList, "1000".toList, "-0.05".toList⟩]

/-- A segmentation file whose name contains ".cna.seg" twice and whose header
carries the column named after the suffix-stripped library. -/
def c1xFile : PyFile :=
  ⟨"a.cna.seg.cna.seg".toList,
   ["chr\tstart\tend\ta.cna.seg.logR_Copy_Number".toList,
    "chr1\t0\t1000\t-0.05".toList]⟩

/-- Results root holding `c1xFile`. -/
def c1xRoot : List SampleDir := [⟨"s".toList, [c1xFile]⟩]

/-- Two long-table rows on the same interval for two libraries. -/
def c2Rows : List CNARow :=
  [⟨"A".toList, "chr1".toList, "0".toList, "1".toList, "0.5".toList⟩,
   ⟨"B".toList, "chr1".toList, "0".toList, "1".toList, "0.7".toList⟩]

/-- Results root whose params file carries `Gender: NA`. -/
def c4xRoot : List SampleDir :=
  [⟨"s1".toList, [⟨"s1.params.txt".toList, ["Gender: NA".toList]⟩]⟩]

/-- A `.cna.seg` file without the expected library-prefixed column. -/
def c6wFile : PyFile :=
  ⟨"a.cna.seg".toList,
   ["chr\tstart\tend\tother".toList, "chr1\t0\t5\t1.0".toList]⟩

/-- Results root whose params file has a colon inside the gender value. -/
def c7xRoot : List SampleDir :=
  [⟨"s1".toList, [⟨"s1.params.txt".toList, ["Gender: ma:le".toList]⟩]⟩]

/-- A single long-table row, duplicated to collide in the pivot. -/
def c10Row : CNARow :=
  ⟨"A".toList, "chr1".toList, "0".toList, "1".toList, "0.5".toList⟩

/-- Appending results of two `Except`-valued scans, failing as soon as the
left one fails; the shape every loop of `extract_cna_data` reduces to. -/
def exceptApp (a b : Except Unit (List CNARow)) : Except Unit (List CNARow) :=
  match a, b with
  | .ok x, .ok y => .ok (x ++ y)
  | .error e, _ => .error e
  | .ok _, .error e => .error e

theorem insertLe_perm {α : Type} (le : α → α → Bool) (x : α) (l : List α) :
    (insertLe le x l).Perm (x :: l) := by
  induction l with
  | nil => simp [insertLe]
  | cons y ys ih =>
    simp only [insertLe]
    by_cases h : le x y
    · simp [h]
    · simp only [h, if_false]
      exact (ih.cons y).trans (List.Perm.swap x y ys)

theorem isort_perm {α : Type} (le : α → α → Bool) (l : List α) :
    (isort le l).Perm l := by
  induction l with
  | nil => simp [isort]
  | cons x xs ih =>
    have : isort le (x :: xs) = insertLe le x (isort le xs) := rfl
    rw [this]
    exact (insertLe_perm le x (isort le xs)).trans (ih.cons x)

theorem insertLe_head {α : Type} (le : α → α → Bool)
    (total : ∀ a b, le a b = true ∨ le b a = true) (x y : α) (l : List α)
    (hxy : le x y = false) (hhead : ∀ z ∈ l.head?, le y z = true) :
    ∀ z ∈ (insertLe le x l).head?, le y z = true := by
  cases l with
  | nil =>
    intro z hz
    simp [insertLe] at hz
    subst hz
    rcases total x y with h | h
    · rw [h] at hxy; cases hxy
    · exact h
  | cons w ws =>
    intro z hz
    simp only [insertLe] at hz
    by_cases h : le x w
    · rw [if_pos h] at hz
      simp at hz
      subst hz
      rcases total x y with h' | h'
      · rw [h'] at hxy; cases hxy
      · exact h'
    · rw [if_neg (by simp [h])] at hz
      simp at hz
      subst hz
      exact hhead w (by simp)

theorem chain'_insertLe {α : Type} (le : α → α → Bool)
    (total : ∀ a b, le a b = true ∨ le b a = true) (x : α) :
    ∀ l : List α, List.Chain' (fun a b => le a b = true) l →
      List.Chain' (fun a b => le a b = true) (insertLe le x l) := by
  intro l
  induction l with
  | nil => intro _; simp [insertLe]
  | cons y ys ih =>
    intro hl
    simp only [insertLe]
    by_cases h : le x y
    · rw [if_pos h]
      exact List.Chain'.cons h hl
    · rw [if_neg (by simp [h])]
      rcases List.chain'_cons'.1 hl with ⟨hhead, htail⟩
      exact List.chain'_cons'.2
        ⟨insertLe_head le total x y ys (by simp [h]) hhead, ih htail⟩

theorem isort_chain' {α : Type} (le : α → α → Bool)
    (total : ∀ a b, le a b = true ∨ le b a = true) (l : List α) :
    List.Chain' (fun a b => le a b = true) (isort le l) := by
  induction l with
  | nil => simp [isort]
  | cons x xs ih => exact chain'_insertLe le total x (isort le xs) ih

theorem strLe_total : ∀ a b : PyStr, strLe a b = true ∨ strLe b a = true := by
  intro a
  induction a with
  | nil => intro b; left; rfl
  | cons c cs ih =>
    intro b
    cases b with
    | nil => right; rfl
    | cons d ds =>
      simp only [strLe]
      by_cases h : c.toNat = d.toNat
      · rw [if_pos h, if_pos h.symm]
        exact ih ds
      · rw [if_neg h, if_neg (fun e => h e.symm)]
        simp only [decide_eq_true_eq]
        omega

theorem tfLe_total : ∀ a b : TFRecord, tfLe a b = true ∨ tfLe b a = true :=
  fun a b => strLe_total a.library b.library

theorem tf_foldl (root : List SampleDir) :
    ∀ acc, root.foldl tfStep acc = (acc.1 ++ tfRecs root, acc.2 ++ tfLog root) := by
  induction root with
  | nil => intro acc; simp [tfRecs, tfLog]
  | cons d ds ih =>
    intro acc
    simp only [List.foldl_cons]
    rw [ih (tfStep acc d)]
    simp only [tfRecs, tfLog, List.filterMap_cons, List.filter_cons]
    cases h : findParamsFile d.files with
    | none => simp [tfStep, h]
    | some f => simp [tfStep, h]

theorem extract_tf_eq (root : List SampleDir) :
    extract_tf_data root = (isort tfLe (tfRecs root), tfLog root) := by
  simp [extract_tf_data, tf_foldl root ([], [])]

theorem updateRecord_library (r : TFRecord) (line : PyStr) :
    (updateRecord r line).library = r.library := by
  simp only [updateRecord]
  repeat' split
  all_goals rfl

theorem parseParamsFile_library (sample : PyStr) (lines : List PyStr) :
    (parseParamsFile sample lines).library = sample := by
  suffices h : ∀ r : TFRecord, (lines.foldl updateRecord r).library = r.library by
    exact h (initRecord sample)
  induction lines with
  | nil => intro r; rfl
  | cons l ls ih => intro r; rw [List.foldl_cons, ih, updateRecord_library]

theorem tfRecs_map_library (root : List SampleDir) :
    (tfRecs root).map (fun r => r.library) =
      (root.filter fun d => (findParamsFile d.files).isSome).map fun d => d.name := by
  induction root with
  | nil => simp [tfRecs]
  | cons d ds ih =>
    simp only [tfRecs, List.filterMap_cons, List.filter_cons]
    cases h : findParamsFile d.files with
    | none => simpa [h] using ih
    | some f =>
      simp only [h, Option.map_some, Option.isSome_some, if_pos, List.map_cons,
        List.filter_cons_of_pos]
      refine congrArg₂ _ (parseParamsFile_library _ _) ?_
      simpa [tfRecs] using ih

theorem zip_foldl (root : List SampleDir) :
    ∀ acc, root.foldl
        (fun acc d =>
          match findParamsFile d.files with
          | some f => (acc.1 ++ [⟨d.name, f.name, f.name⟩], acc.2)
          | none => (acc.1, acc.2 ++ [noParamsMsg d.name])) acc
      = (acc.1 ++ zipMembers root, acc.2 ++ zipLog root) := by
  induction root with
  | nil => intro acc; simp [zipMembers, zipLog]
  | cons d ds ih =>
    intro acc
    simp only [List.foldl_cons]
    rw [ih]
    simp only [zipMembers, zipLog, List.filterMap_cons, List.filter_cons]
    cases h : findParamsFile d.files with
    | none => simp [h]
    | some f => simp [h]

theorem collectFilesRows_ok {sel : PyStr} :
    ∀ {fs : List PyFile} {l : List CNARow}, collectFilesRows sel fs = .ok l →
      l = (fs.filter fun f => pyEndsWith f.name segSuffix).flatMap (fileRowsOr sel) := by
  intro fs
  induction fs with
  | nil =>
    intro l h
    simp only [collectFilesRows] at h
    cases h
    simp
  | cons f fs ih =>
    intro l h
    simp only [collectFilesRows] at h
    by_cases he : pyEndsWith f.name segSuffix
    · rw [if_pos he] at h
      cases h1 : extractFileRows sel f with
      | error e => rw [h1] at h; cases h
      | ok rs =>
        cases h2 : collectFilesRows sel fs with
        | error e => rw [h1, h2] at h; cases h
        | ok rest =>
          rw [h1, h2] at h
          cases h
          simp only [List.filter_cons, he, if_true, List.flatMap_cons]
          rw [← ih h2]
          simp [fileRowsOr, h1]
    · rw [if_neg he] at h
      simp only [List.filter_cons, he, if_false]
      exact ih h

theorem collectRows_ok {sel : PyStr} :
    ∀ {root : List SampleDir} {l : List CNARow}, collectRows sel root = .ok l →
      l = sourceRows root sel := by
  intro root
  induction root with
  | nil =>
    intro l h
    simp only [collectRows] at h
    cases h
    simp [sourceRows]
  | cons d ds ih =>
    intro l h
    simp only [collectRows] at h
    cases h1 : collectFilesRows sel d.files with
    | error e => rw [h1] at h; cases h
    | ok rs =>
      cases h2 : collectRows sel ds with
      | error e => rw [h1, h2] at h; cases h
      | ok rest =>
        rw [h1, h2] at h
        cases h
        have hsrc : sourceRows (d :: ds) sel =
            ((d.files.filter fun f => pyEndsWith f.name segSuffix).flatMap
              (fileRowsOr sel)) ++ sourceRows ds sel := by
          simp [sourceRows]
        rw [hsrc, ← ih h2, ← collectFilesRows_ok h1]

theorem collectFilesRows_append (sel : PyStr) (l1 l2 : List PyFile) :
    collectFilesRows sel (l1 ++ l2) =
      exceptApp (collectFilesRows sel l1) (collectFilesRows sel l2) := by
  induction l1 with
  | nil =>
    simp only [List.nil_append, collectFilesRows]
    cases h : collectFilesRows sel l2 with
    | error e => rfl
    | ok rest => simp [exceptApp]
  | cons f fs ih =>
    simp only [List.cons_append, collectFilesRows, List.append_eq]
    by_cases he : pyEndsWith f.name segSuffix
    · rw [if_pos he, if_pos he, ih]
      cases extractFileRows sel f with
      | error e => rfl
      | ok rs =>
        cases collectFilesRows sel fs with
        | error e => rfl
        | ok rest =>
          cases collectFilesRows sel l2 with
          | error e => rfl
          | ok rest2 => simp [exceptApp]
    · rw [if_neg he, if_neg he, ih]

theorem collectRows_append (sel : PyStr) (l1 l2 : List SampleDir) :
    collectRows sel (l1 ++ l2) =
      exceptApp (collectRows sel l1) (collectRows sel l2) := by
  induction l1 with
  | nil =>
    simp only [List.nil_append, collectRows]
    cases h : collectRows sel l2 with
    | error e => rfl
    | ok rest => simp [exceptApp]
  | cons d ds ih =>
    simp only [List.cons_append, collectRows, List.append_eq]
    rw [ih]
    cases collectFilesRows sel d.files with
    | error e => rfl
    | ok rs =>
      cases collectRows sel ds with
      | error e => rfl
      | ok rest =>
        cases collectRows sel l2 with
        | error e => rfl
        | ok rest2 => simp [exceptApp]

theorem collectFilesRows_none (sel : PyStr) {fs : List PyFile}
    (h : ∀ f ∈ fs, pyEndsWith f.name segSuffix = false) :
    collectFilesRows sel fs = .ok [] := by
  induction fs with
  | nil => rfl
  | cons f fs ih =>
    simp only [collectFilesRows]
    rw [if_neg (by simp [h f (by simp)])]
    exact ih fun g hg => h g (by simp [hg])

theorem pyReplaceFuel_of_not_contains (pat rep : PyStr) :
    ∀ (fuel : Nat) (s : PyStr), pyContains pat s = false →
      pyReplaceFuel pat rep fuel s = s := by
  intro fuel
  induction fuel with
  | zero =>
    intro s hs
    cases s with
    | nil =>
      simp only [pyContains, List.isEmpty_iff] at hs
      simp [pyReplaceFuel, hs]
    | cons c rest => rfl
  | succ n ih =>
    intro s hs
    cases s with
    | nil =>
      simp only [pyContains, List.isEmpty_iff] at hs
      simp [pyReplaceFuel, hs]
    | cons c rest =>
      simp only [pyContains, Bool.or_eq_false_iff] at hs
      obtain ⟨hpre, hrest⟩ := hs
      have hemp : pat.isEmpty = false := by
        cases pat with
        | nil => simp [List.isPrefixOf] at hpre
        | cons p ps => rfl
      simp only [pyReplaceFuel, hemp, Bool.false_eq_true, if_false, hpre]
      rw [ih rest hrest]

theorem pyReplace_of_not_contains (pat s : PyStr)
    (h : pyContains pat s = false) : pyReplace pat [] s = s :=
  pyReplaceFuel_of_not_contains pat [] s.length s h

theorem pySplitOnChar_append (sep : Char) (rest : PyStr) :
    ∀ pre : PyStr, sep ∉ pre →
      pySplitOnChar sep (pre ++ sep :: rest) = pre :: pySplitOnChar sep rest := by
  intro pre
  induction pre with
  | nil => simp [pySplitOnChar]
  | cons c cs ih =>
    intro h
    have hc : ¬(c = sep) := fun e => h (by simp [e])
    simp only [List.cons_append, pySplitOnChar, if_neg hc, List.append_eq]
    rw [ih (fun hm => h (by simp [hm]))]

theorem pySplitOnChar_no_sep (sep : Char) :
    ∀ s : PyStr, sep ∉ s → pySplitOnChar sep s = [s] := by
  intro s
  induction s with
  | nil => intro _; rfl
  | cons c cs ih =>
    intro h
    have hc : ¬(c = sep) := fun e => h (by simp [e])
    simp only [pySplitOnChar, if_neg hc]
    rw [ih (fun hm => h (by simp [hm]))]

theorem pkey_iff (x r : CNARow) :
    pkey x = pkey r ↔ (rowKey x = rowKey r ∧ x.library = r.library) := by
  simp only [pkey, rowKey, Prod.mk.injEq]
  tauto

theorem hasDup_cons {y : CNARow} {rest : List CNARow}
    (h : hasDupPivotKey (y :: rest) = false) :
    (∀ x ∈ rest, pkey x ≠ pkey y) ∧ hasDupPivotKey rest = false := by
  simp only [hasDupPivotKey, Bool.or_eq_false_iff, List.any_eq_false,
    decide_eq_true_eq] at h
  exact ⟨h.1, h.2⟩

theorem find_pkey :
    ∀ {rows : List CNARow}, hasDupPivotKey rows = false →
      ∀ {r : CNARow}, r ∈ rows →
        rows.find?
            (fun x => decide (rowKey x = rowKey r) && decide (x.library = r.library))
          = some r := by
  intro rows
  induction rows with
  | nil => intro _ r hr; cases hr
  | cons y ys ih =>
    intro hnd r hr
    obtain ⟨hany, hrest⟩ := hasDup_cons hnd
    rcases List.mem_cons.1 hr with rfl | hmem
    · exact List.find?_cons_of_pos _ (by simp)
    · have hpy : ¬(decide (rowKey y = rowKey r) && decide (y.library = r.library)) = true := by
        intro hcontra
        simp only [Bool.and_eq_true, decide_eq_true_eq] at hcontra
        have : pkey r = pkey y := by
          rw [(pkey_iff y r).2 ⟨hcontra.1, hcontra.2⟩]
        exact hany r hmem this
      have step :
          List.find?
              (fun x => decide (rowKey x = rowKey r) && decide (x.library = r.library))
              (y :: ys)
            = List.find?
                (fun x => decide (rowKey x = rowKey r) && decide (x.library = r.library))
                ys :=
        List.find?_cons_of_neg _ hpy
      rw [step]
      exact ih hrest hmem

theorem pivotCells_of_mem {rows : List CNARow} (hnd : hasDupPivotKey rows = false)
    {r : CNARow} (hr : r ∈ rows) :
    pivotCells rows (rowKey r) r.library = some r.value := by
  simp only [pivotCells]
  rw [find_pkey hnd hr]
  rfl

theorem pivotCells_of_absent (rows : List CNARow) (k : PyStr × PyStr × PyStr)
    (lib : PyStr) (h : ∀ r ∈ rows, ¬(rowKey r = k ∧ r.library = lib)) :
    pivotCells rows k lib = none := by
  simp only [pivotCells, Option.map_eq_none', List.find?_eq_none]
  intro x hx
  simp only [Bool.and_eq_true, decide_eq_true_eq]
  exact fun hc => h x hx ⟨hc.1, hc.2⟩

/-- C3: for every results root, the parameter table holds exactly one record
for each immediate subdirectory with at least one `.params.txt` file (none for
the others), each record's library is that subdirectory's name, and the table
is sorted ascending (lexicographically on code points) by library. -/
theorem c3_param_table (root : List SampleDir) :
    ((extract_tf_data root).1).Perm (tfRecs root)
    ∧ List.Chain' (fun a b => tfLe a b = true) (extract_tf_data root).1
    ∧ ((extract_tf_data root).1.map fun r => r.library).Perm
        ((root.filter fun d => (findParamsFile d.files).isSome).map fun d => d.name) := by
  have he := extract_tf_eq root
  refine ⟨?_, ?_, ?_⟩
  · rw [he]
    exact isort_perm _ _
  · rw [he]
    exact isort_chain' tfLe tfLe_total _
  · rw [he]
    have hp : ((isort tfLe (tfRecs root)).map fun r => r.library).Perm
        ((tfRecs root).map fun r => r.library) := (isort_perm _ _).map _
    rw [tfRecs_map_library] at hp
    exact hp

/-- C5 (amended): a subdirectory without the expected file is non-fatal for
both extractions and contributes no record to either; the parameter extraction
prints a diagnostic for it, but the segmentation extraction prints nothing at
all (it is silently non-fatal). -/
theorem c5_missing_file (root : List SampleDir) (sel : PyStr) :
    (extract_tf_data root).2 = tfLog root
    ∧ ((extract_tf_data root).1).Perm (tfRecs root)
    ∧ (extract_cna_data root sel).2 = []
    ∧ ∀ pre d post, root = pre ++ d :: post →
        (∀ f ∈ d.files, pyEndsWith f.name segSuffix = false) →
        (extract_cna_data root sel).1 = (extract_cna_data (pre ++ post) sel).1 := by
  refine ⟨?_, ?_, rfl, ?_⟩
  · rw [extract_tf_eq]
  · rw [extract_tf_eq]
    exact isort_perm _ _
  · intro pre d post hroot hnone
    subst hroot
    simp only [extract_cna_data]
    congr 1
    rw [collectRows_append sel pre (d :: post), collectRows_append sel pre post]
    have hd : collectRows sel (d :: post) = collectRows sel post := by
      simp only [collectRows]
      rw [collectFilesRows_none sel hnone]
      cases collectRows sel post with
      | error e => rfl
      | ok rest => simp
    rw [hd]

/-- C5 counterexample: for a subdirectory with no files at all, the parameter
extraction prints its diagnostic but the segmentation extraction prints no
diagnostic whatsoever, refuting the claim that both extractions print one. -/
theorem c5_counterexample :
    (extract_cna_data [⟨"s1".toList, []⟩] logRSel).2 = []
    ∧ (extract_tf_data [⟨"s1".toList, []⟩]).2 = [noParamsMsg "s1".toList] :=
  ⟨rfl, by decide⟩

theorem c5_witness :
    (extract_cna_data [⟨"s1".toList, []⟩] logRSel).1
      = (extract_cna_data [] logRSel).1
    ∧ (extract_tf_data [⟨"s1".toList, []⟩]).2 = tfLog [⟨"s1".toList, []⟩] :=
  ⟨(c5_missing_file [⟨"s1".toList, []⟩] logRSel).2.2.2 [] ⟨"s1".toList, []⟩ []
      rfl (by simp),
   (c5_missing_file [⟨"s1".toList, []⟩] logRSel).1⟩

/-- C6: a `.cna.seg` file whose header lacks the library-prefixed selector
column is skipped silently: it yields no rows, its presence does not change
the collected rows, and the segmentation extractor prints no diagnostic. -/
theorem c6_silent_skip (sel : PyStr) (f : PyFile) (pre post : List PyFile)
    (hend : pyEndsWith f.name segSuffix = true)
    (hcol : segColumnName (libOfFileName f.name) sel ∉ (parseTable f.content).columns) :
    extractFileRows sel f = .ok []
    ∧ collectFilesRows sel (pre ++ f :: post) = collectFilesRows sel (pre ++ post)
    ∧ ∀ root : List SampleDir, (extract_cna_data root sel).2 = [] := by
  have h1 : extractFileRows sel f = .ok [] := by
    simp only [extractFileRows]
    rw [if_neg hcol]
  refine ⟨h1, ?_, fun root => rfl⟩
  rw [collectFilesRows_append sel pre (f :: post),
    collectFilesRows_append sel pre post]
  have hf : collectFilesRows sel (f :: post) = collectFilesRows sel post := by
    simp only [collectFilesRows]
    rw [if_pos hend, h1]
    cases collectFilesRows sel post with
    | error e => rfl
    | ok rest => simp
  rw [hf]

theorem c6_witness :
    extractFileRows logRSel c6wFile = .ok []
    ∧ collectFilesRows logRSel ([] ++ c6wFile :: [])
        = collectFilesRows logRSel ([] ++ []) :=
  have h := c6_silent_skip logRSel c6wFile [] [] (by decide) (by decide)
  ⟨h.1, h.2.1⟩

theorem create_params_zip_eq (root : List SampleDir) :
    create_params_zip root = (zipMembers root, zipLog root) := by
  simp only [create_params_zip]
  simpa using zip_foldl root ([], [])

theorem zipMembers_map_arcname (root : List SampleDir) :
    ((zipMembers root).map fun m => m.arcname)
      = ((zipMembers root).map fun m => m.srcFile) := by
  induction root with
  | nil => rfl
  | cons d ds ih =>
    simp only [zipMembers, List.filterMap_cons] at ih ⊢
    cases h : findParamsFile d.files with
    | none => exact ih
    | some f =>
      simp only [Option.map_some', List.map_cons]
      exact congrArg₂ _ rfl ih

/-- C8: `params.zip` gets exactly one member per subdirectory holding a
`.params.txt` file — the first matching file in listing order, stored under its
bare file name with no directory prefix; subdirectories without one only get a
printed diagnostic, and archive creation succeeds regardless. -/
theorem c8_zip_members (root : List SampleDir) :
    (create_params_zip root).1 = zipMembers root
    ∧ (create_params_zip root).2 = zipLog root
    ∧ ((create_params_zip root).1.map fun m => m.arcname)
        = ((create_params_zip root).1.map fun m => m.srcFile) := by
  rw [create_params_zip_eq]
  exact ⟨rfl, rfl, zipMembers_map_arcname root⟩

/-- C4 (amended): on a recognized line, the four numeric fields record NaN for
the literal value `NA`; the gender field instead stores the literal trimmed
string, even when that string is `NA`. -/
theorem c4_na_handling (r : TFRecord) (raw : PyStr) :
    (pyContains genderLabel (pyStrip raw) = true →
      (updateRecord r raw).gender = some (lineValue (pyStrip raw)))
    ∧ (pyContains genderLabel (pyStrip raw) = false →
        pyContains tumorFractionLabel (pyStrip raw) = true →
        lineValue (pyStrip raw) = naLit →
        (updateRecord r raw).tumor_fraction = .nan)
    ∧ (pyContains genderLabel (pyStrip raw) = false →
        pyContains tumorFractionLabel (pyStrip raw) = false →
        pyContains ploidyLabel (pyStrip raw) = true →
        lineValue (pyStrip raw) = naLit →
        (updateRecord r raw).ploidy = .nan)
    ∧ (pyContains genderLabel (pyStrip raw) = false →
        pyContains tumorFractionLabel (pyStrip raw) = false →
        pyContains ploidyLabel (pyStrip raw) = false →
        pyContains chrYLabel (pyStrip raw) = true →
        lineValue (pyStrip raw) = naLit →
        (updateRecord r raw).ChrY_coverage_fraction = .nan)
    ∧ (pyContains genderLabel (pyStrip raw) = false →
        pyContains tumorFractionLabel (pyStrip raw) = false →
        pyContains ploidyLabel (pyStrip raw) = false →
        pyContains chrYLabel (pyStrip raw) = false →
        pyContains chrXLabel (pyStrip raw) = true →
        lineValue (pyStrip raw) = naLit →
        (updateRecord r raw).ChrX_median_log_ratio = .nan) := by
  refine ⟨?_, ?_, ?_, ?_, ?_⟩
  · intro hg
    simp [updateRecord, hg]
  · intro hg htf hna
    simp [updateRecord, hg, htf, numFieldOf, hna]
  · intro hg htf hpl hna
    simp [updateRecord, hg, htf, hpl, numFieldOf, hna]
  · intro hg htf hpl hy hna
    simp [updateRecord, hg, htf, hpl, hy, numFieldOf, hna]
  · intro hg htf hpl hy hx hna
    simp [updateRecord, hg, htf, hpl, hy, hx, numFieldOf, hna]

/-- C4 counterexample: with the parameter line `Gender: NA`, the gender field
of the sample's record holds the literal string `NA`, not a missing value. -/
theorem c4_counterexample :
    ((extract_tf_data c4xRoot).1.map fun r => r.gender) = [some naLit]
    ∧ some naLit ≠ (none : Option PyStr) :=
  ⟨by decide, by decide⟩

theorem c4_witness :
    (updateRecord (initRecord "s".toList) "Gender: NA".toList).gender = some naLit
    ∧ (updateRecord (initRecord "s".toList)
        "Tumor Fraction: NA".toList).tumor_fraction = .nan
    ∧ (updateRecord (initRecord "s".toList) "Ploidy: NA".toList).ploidy = .nan
    ∧ (updateRecord (initRecord "s".toList)
        "ChrY coverage fraction: NA".toList).ChrY_coverage_fraction = .nan
    ∧ (updateRecord (initRecord "s".toList)
        "ChrX median log ratio: NA".toList).ChrX_median_log_ratio = .nan := by
  refine ⟨?_, ?_, ?_, ?_, ?_⟩
  · rw [(c4_na_handling (initRecord "s".toList) "Gender: NA".toList).1 (by decide)]
    decide
  · exact (c4_na_handling (initRecord "s".toList) "Tumor Fraction: NA".toList).2.1
      (by decide) (by decide) (by decide)
  · exact (c4_na_handling (initRecord "s".toList) "Ploidy: NA".toList).2.2.1
      (by decide) (by decide) (by decide) (by decide)
  · exact (c4_na_handling (initRecord "s".toList)
        "ChrY coverage fraction: NA".toList).2.2.2.1
      (by decide) (by decide) (by decide) (by decide) (by decide)
  · exact (c4_na_handling (initRecord "s".toList)
        "ChrX median log ratio: NA".toList).2.2.2.2
      (by decide) (by decide) (by decide) (by decide) (by decide) (by decide)

/-- C7 (amended): the value recorded for a recognized line is the trimmed text
between the first and second colons of the line; only when the line has no
second colon is it the whole trimmed text after the first colon. -/
theorem c7_value_between_colons (pre mid post : PyStr)
    (hpre : ':' ∉ pre) (hmid : ':' ∉ mid) :
    lineValue (pre ++ ':' :: (mid ++ ':' :: post)) = pyStrip mid
    ∧ lineValue (pre ++ ':' :: mid) = pyStrip mid := by
  constructor
  · simp only [lineValue]
    rw [pySplitOnChar_append ':' (mid ++ ':' :: post) pre hpre,
      pySplitOnChar_append ':' post mid hmid]
    rfl
  · simp only [lineValue]
    rw [pySplitOnChar_append ':' mid pre hpre, pySplitOnChar_no_sep ':' mid hmid]
    rfl

/-- C7 counterexample: with the parameter line `Gender: ma:le`, the recorded
gender is `ma` — the text between the first and second colons — and not the
full text `ma:le` after the first colon as the claim states. -/
theorem c7_counterexample :
    ((extract_tf_data c7xRoot).1.map fun r => r.gender) = [some "ma".toList]
    ∧ "ma".toList ≠ "ma:le".toList :=
  ⟨by decide, by decide⟩

theorem c7_witness :
    lineValue ("Gender".toList ++ ':' :: (" male".toList ++ ':' :: "x".toList))
        = pyStrip " male".toList
    ∧ lineValue ("Gender".toList ++ ':' :: " male".toList)
        = pyStrip " male".toList :=
  c7_value_between_colons "Gender".toList " male".toList "x".toList
    (by decide) (by decide)

/-- C9: removing a non-empty pattern from a library identifier is idempotent
whenever the removal's result no longer contains the pattern. -/
theorem c9_normalize_idempotent (pat s : PyStr) (_hne : pat ≠ [])
    (h : pyContains pat (renameLib pat s) = false) :
    renameLib pat (renameLib pat s) = renameLib pat s := by
  have hid := pyReplace_of_not_contains pat (renameLib pat s) h
  simpa only [renameLib] using hid

theorem c9_witness :
    renameLib ".bam".toList (renameLib ".bam".toList "a.bamb.bam".toList)
      = renameLib ".bam".toList "a.bamb.bam".toList :=
  c9_normalize_idempotent ".bam".toList "a.bamb.bam".toList
    (by decide) (by decide)

theorem countP_eq_one_of_nodup {α : Type} [DecidableEq α] :
    ∀ {l : List α}, l.Nodup → ∀ {a : α}, a ∈ l →
      (l.countP fun x => decide (x = a)) = 1 := by
  intro l
  induction l with
  | nil => intro _ a ha; cases ha
  | cons y ys ih =>
    intro hnd a ha
    have hy : y ∉ ys := (List.nodup_cons.1 hnd).1
    have hys : ys.Nodup := (List.nodup_cons.1 hnd).2
    rcases List.mem_cons.1 ha with rfl | hmem
    · have hz : (ys.countP fun x => decide (x = a)) = 0 := by
        rw [List.countP_eq_zero]
        intro x hx
        simp only [decide_eq_true_eq]
        exact fun e => hy (e ▸ hx)
      simp [List.countP_cons, hz]
    · have hne : ¬(y = a) := fun e => hy (e ▸ hmem)
      simp [List.countP_cons, hne, ih hys hmem]

/-- C1 (amended): whenever the segmentation extractor returns a table, that
table is — as a multiset — exactly the tagged rows of all qualifying
`.cna.seg` files of all subdirectories (so each data row of a qualifying file
appears exactly once when its tagged tuple is unique across qualifying files),
with library, chr, start, end and the value carried through unchanged; the
library is the file name with every occurrence of `.cna.seg` removed. -/
theorem c1_rows_preserved (root : List SampleDir) (sel : PyStr) (t : List CNARow)
    (h : (extract_cna_data root sel).1 = .ok t) :
    t.Perm (sourceRows root sel) := by
  simp only [extract_cna_data] at h
  cases hc : collectRows sel root with
  | error e =>
    rw [hc] at h
    simp [Except.map] at h
  | ok l =>
    rw [hc] at h
    simp only [Except.map, Except.ok.injEq] at h
    subst h
    rw [← collectRows_ok hc]
    exact isort_perm cnaLe l

/-- C1 counterexample: this file name ends in `.cna.seg` and its header holds
the column named after the suffix-stripped library (`a.cna.seg` + `.` +
selector), yet the extractor returns an empty table: the script removes every
occurrence of `.cna.seg` from the name, so it looks for the absent column
`a.logR_Copy_Number` and silently skips the file. -/
theorem c1_counterexample :
    pyEndsWith c1xFile.name segSuffix = true
    ∧ c1xFile.name = "a.cna.seg".toList ++ segSuffix
    ∧ segColumnName "a.cna.seg".toList logRCNSel ∈ (parseTable c1xFile.content).columns
    ∧ (extract_cna_data c1xRoot logRCNSel).1 = .ok [] :=
  ⟨by decide, by decide, by decide, rfl⟩

theorem c1_witness :
    (extract_cna_data c1wRoot logRSel).1 = .ok c1wRows
    ∧ c1wRows.Perm (sourceRows c1wRoot logRSel) :=
  ⟨rfl, c1_rows_preserved c1wRoot logRSel c1wRows rfl⟩

/-- C2: when the long table's `(library, chr, start, end)` keys are unique,
the pivot succeeds; the wide matrix has exactly one row per `(chr, start,
end)` triple occurring in the long table; in that row the library's column
holds exactly the long-table value; and a `(triple, library)` pair with no
long-table record yields a missing cell. -/
theorem c2_pivot_consistency (rows : List CNARow)
    (hnd : hasDupPivotKey rows = false) :
    pivot rows = .ok (pivotTable rows)
    ∧ (∀ r ∈ rows, (((pivotTable rows).keys.countP fun k => decide (k = rowKey r)) = 1)
        ∧ (pivotTable rows).cells (rowKey r) r.library = some r.value)
    ∧ (∀ k lib, (∀ r ∈ rows, ¬(rowKey r = k ∧ r.library = lib)) →
        (pivotTable rows).cells k lib = none) := by
  refine ⟨by simp [pivot, hnd], ?_, ?_⟩
  · intro r hr
    refine ⟨?_, ?_⟩
    · exact countP_eq_one_of_nodup (List.nodup_dedup (rows.map rowKey))
        (List.mem_dedup.2 (List.mem_map_of_mem rowKey hr))
    · exact pivotCells_of_mem hnd hr
  · intro k lib h
    exact pivotCells_of_absent rows k lib h

theorem c2_witness :
    pivot c2Rows = .ok (pivotTable c2Rows)
    ∧ (pivotTable c2Rows).cells ("chr1".toList, "0".toList, "1".toList)
        "B".toList = some "0.7".toList :=
  have h := c2_pivot_consistency c2Rows (by decide)
  ⟨h.1,
   (h.2.1 ⟨"B".toList, "chr1".toList, "0".toList, "1".toList, "0.7".toList⟩
      (by decide)).2⟩

/-- C10: a duplicate `(chr, start, end, library)` key in the long table passed
to the pivot makes the pivot raise and the whole invocation fail, producing
none of the output tables; with unique keys in both renamed long tables the
pivot and the invocation succeed. -/
theorem c10_pivot_duplicates :
    (∀ rows : List CNARow, hasDupPivotKey rows = true → pivot rows = .error ())
    ∧ (∀ rows : List CNARow, hasDupPivotKey rows = false →
        pivot rows = .ok (pivotTable rows))
    ∧ (∀ (root : List SampleDir) (pat : PyStr) (rows1 : List CNARow),
        (extract_cna_data root logRSel).1 = .ok rows1 →
        hasDupPivotKey (renameRows pat rows1) = true →
        mainResult root pat = .error ())
    ∧ (∀ (root : List SampleDir) (pat : PyStr) (rows1 rows2 : List CNARow),
        (extract_cna_data root logRSel).1 = .ok rows1 →
        (extract_cna_data root logRCNSel).1 = .ok rows2 →
        hasDupPivotKey (renameRows pat rows1) = false →
        hasDupPivotKey (renameRows pat rows2) = false →
        ∃ out, mainResult root pat = .ok out) := by
  refine ⟨?_, ?_, ?_, ?_⟩
  · intro rows h
    simp [pivot, h]
  · intro rows h
    simp [pivot, h]
  · intro root pat rows1 h1 hdup
    have hp : pivot (renameRows pat rows1) = .error () := by
      simp [pivot, hdup]
    cases h2 : (extract_cna_data root logRCNSel).1 with
    | error e =>
      cases e
      simp [mainResult, h1, h2]
    | ok rows2 => simp [mainResult, h1, h2, hp]
  · intro root pat rows1 rows2 h1 h2 hd1 hd2
    have hp1 : pivot (renameRows pat rows1)
        = .ok (pivotTable (renameRows pat rows1)) := by
      simp [pivot, hd1]
    have hp2 : pivot (renameRows pat rows2)
        = .ok (pivotTable (renameRows pat rows2)) := by
      simp [pivot, hd2]
    refine ⟨{ tf := renameTF pat (extract_tf_data root).1,
              cnaLongLogR := renameRows pat rows1,
              cnaLongLogRCN := renameRows pat rows2,
              matrixLogR := pivotTable (renameRows pat rows1),
              matrixLogRCN := pivotTable (renameRows pat rows2) }, ?_⟩
    simp [mainResult, h1, h2, hp1, hp2]

theorem c10_witness :
    pivot [c10Row, c10Row] = .error ()
    ∧ (∃ out, mainResult [] ".bam".toList = .ok out) :=
  ⟨c10_pivot_duplicates.1 [c10Row, c10Row] (by decide),
   c10_pivot_duplicates.2.2.2 [] ".bam".toList [] [] rfl rfl
     (by decide) (by decide)⟩
